import Mathlib

/-!
Verification development for the swar-experiments repository.

The repository's source (under scripts/) consists of two Python programs:
`comparison.py` (benchmark comparison charts for PackedSet vs standard
containers) and `visualize.py` (SWAR packing-density chart and throughput
chart).  Those scripts are embedded here shallowly: each Python function is
translated to an executable Lean definition over `String`, `List`, `Nat`,
`Int` and `Rat` (Python floats that appear here only ever divide small
integers by powers of two and scale by 100, so `Rat` models them exactly).

The PackedSet container itself is not part of the visible source; where a
claim concerns it, the container is modelled from the specification text,
and its definitions carry doc comments starting with "Modelled from the
spec:".
-/

/-! ## Character classes used by the Python regexes

Python's `\w` matches `[A-Za-z0-9_]` (restricted to ASCII inputs, which is
all that benchmark names contain); `\d` matches decimal digits. -/

/-- Word character as in the regex class `\w` (ASCII fragment). -/
def isWordChar (c : Char) : Bool :=
  c.isAlphanum || c = '_'

/-! ## comparison.py : `parse_name`

The Python source is
`re.match(r"BM_(\w+?)_(PackedSet|StdSet|UnorderedSet|SortedVector|Vector|Array)$", name)`.
`re.match` anchors at the start of the string; `$` matches at the end of the
string or just before one trailing newline; `\w+?` is lazy, so the shortest
first group wins.  The embedding matches the literal `BM_`, then tries ever
longer nonempty word-character prefixes for group 1, each followed by `_`
and one of the six container alternatives flush with the end anchor. -/

/-- The six container alternatives of the regex, in alternation order. -/
def containerAlts : List String :=
  ["PackedSet", "StdSet", "UnorderedSet", "SortedVector", "Vector", "Array"]

/-- Does the character list consist of exactly `alt` followed by the end
anchor (`$`: end of input, or one trailing newline)? -/
def tailAnchor (alt : List Char) (l : List Char) : Bool :=
  decide (l = alt) || decide (l = alt ++ ['\n'])

/-- First container alternative matching the rest of the input up to the end
anchor, if any. -/
def containerAt (l : List Char) : Option String :=
  containerAlts.find? (fun alt => tailAnchor alt.data l)

/-- Lazy search for the `(\w+?)_(alts)$` part: grow group 1 one word
character at a time; at each length try `_` followed by a container
alternative at the end anchor. -/
def findSplit (acc : List Char) : List Char → Option (String × String)
  | [] => none
  | c :: rest =>
    if isWordChar c then
      let acc2 := acc ++ [c]
      match rest with
      | '_' :: rest2 =>
        match containerAt rest2 with
        | some cont => some (String.mk acc2, cont)
        | none => findSplit acc2 rest
      | _ => findSplit acc2 rest
    else none

/-- Embedding of `comparison.py`'s `parse_name`: extract
`(operation, container)` from a benchmark name such as
`BM_Insert_PackedSet`; `none` plays the role of Python's `(None, None)`. -/
def parse_name (s : String) : Option (String × String) :=
  match s.data with
  | 'B' :: 'M' :: '_' :: rest => findSplit [] rest
  | _ => none

/-! ## Association lists modelling Python dicts

Python dicts keep insertion order; assignment to a present key overwrites
the value in place, assignment to an absent key appends.  `setA` is plain
`d[k] = v`; `setN` is `d.setdefault(k1, {})[k2] = v`. -/

/-- Dict assignment `d[k] = v`: overwrite in place or append. -/
def setA {α β : Type} [DecidableEq α] : List (α × β) → α → β → List (α × β)
  | [], k, v => [(k, v)]
  | (k', v') :: rest, k, v =>
    if k' = k then (k', v) :: rest else (k', v') :: setA rest k v

/-- Dict lookup `d.get(k)`: first (hence unique) binding of `k`. -/
def lookupA {α β : Type} [DecidableEq α] (k : α) : List (α × β) → Option β
  | [] => none
  | (k', v) :: rest => if k' = k then some v else lookupA k rest

/-- Nested dict assignment `d.setdefault(k1, dict())[k2] = v`. -/
def setN {α γ β : Type} [DecidableEq α] [DecidableEq γ] :
    List (α × List (γ × β)) → α → γ → β → List (α × List (γ × β))
  | [], k1, k2, v => [(k1, [(k2, v)])]
  | (k, inner) :: rest, k1, k2, v =>
    if k = k1 then (k, setA inner k2 v) :: rest
    else (k, inner) :: setN rest k1 k2 v

/-- Nested dict lookup: `d[k1][k2]` as an `Option` (keys are unique in a
dict, so the first outer binding is the binding). -/
def lookupN {α γ β : Type} [DecidableEq α] [DecidableEq γ]
    (k1 : α) (k2 : γ) : List (α × List (γ × β)) → Option β
  | [] => none
  | (k, inner) :: rest =>
    if k = k1 then lookupA k2 inner else lookupN k1 k2 rest

/-! ## comparison.py : `main`'s grouping loop -/

/-- One benchmark record of the comparison JSON: the `name` string, the
`real_time` value, and the optional `N` and `size` fields. -/
structure CRecord where
  name : String
  real_time : ℚ
  nField : Option Int
  sizeField : Option Int
deriving DecidableEq, Repr

/-- State threaded through `main`'s loop over `raw["benchmarks"]`:
the nested `ops` dict and the `bench_n` / `bench_size` cells. -/
structure CompState where
  ops : List (String × List (String × ℚ))
  benchN : Option Int
  benchSize : Option Int
deriving DecidableEq, Repr

/-- Python `x if x is not None else y` for the `bench_n` update pattern
`if bench_n is None and "N" in bm: bench_n = int(bm["N"])`. -/
def keepFirst (a b : Option Int) : Option Int :=
  match a with
  | some x => some x
  | none => b

/-- One iteration of `main`'s loop: skip the record if `parse_name` fails,
otherwise store its time under `(operation, container)` and latch the first
`N` / `size` fields seen. -/
def compStep (st : CompState) (bm : CRecord) : CompState :=
  match parse_name bm.name with
  | none => st
  | some (op, container) =>
    { ops := setN st.ops op container bm.real_time
      benchN := keepFirst st.benchN bm.nField
      benchSize := keepFirst st.benchSize bm.sizeField }

/-- The whole grouping loop of `comparison.py`'s `main`. -/
def comparisonGroup (records : List CRecord) : CompState :=
  records.foldl compStep { ops := [], benchN := none, benchSize := none }

/-- Python `str(bench_n) if bench_n is not None else "?"`. -/
def optIntStr (o : Option Int) : String :=
  match o with
  | some n => toString n
  | none => "?"

/-- The `n_str` rendered into every chart title. -/
def comparisonNStr (records : List CRecord) : String :=
  optIntStr (comparisonGroup records).benchN

/-- The `sz_str` rendered into every chart title. -/
def comparisonSzStr (records : List CRecord) : String :=
  optIntStr (comparisonGroup records).benchSize

/-- The four per-operation titles plus the figure suptitle, exactly as
`main` builds them from `n_str` and `sz_str`. -/
def comparisonTitles (records : List CRecord) : List String :=
  let n_str := comparisonNStr records
  let sz_str := comparisonSzStr records
  [ "Insert " ++ sz_str ++ " Elements (N=" ++ n_str ++ ")"
  , "Contains — Hit (N=" ++ n_str ++ ", size=" ++ sz_str ++ ")"
  , "Contains — Miss (N=" ++ n_str ++ ", size=" ++ sz_str ++ ")"
  , "Erase (N=" ++ n_str ++ ", size=" ++ sz_str ++ ")"
  , "PackedSet<" ++ n_str ++ "> vs Standard Containers (size=" ++ sz_str ++ ")" ]

/-! ## comparison.py : `plot_operation` -/

/-- `CONTAINER_ORDER` from `comparison.py`. -/
def CONTAINER_ORDER : List String :=
  ["PackedSet", "StdSet", "UnorderedSet", "Vector", "SortedVector", "Array"]

/-- `CONTAINER_LABELS` from `comparison.py`, as a dict. -/
def CONTAINER_LABELS : List (String × String) :=
  [ ("PackedSet", "PackedSet<11>")
  , ("StdSet", "std::set")
  , ("UnorderedSet", "std::unordered_set")
  , ("Vector", "std::vector")
  , ("SortedVector", "sorted vector")
  , ("Array", "std::array") ]

/-- Display of a numeric value with one digit after the point, modelling
Python's format `%.1f` on the nonnegative values this program plots (the
tie-rounding of binary floats is irrelevant to the claims, which only
evaluate it at 0). -/
def fmtTenths (q : ℚ) : String :=
  let n : ℤ := round (q * 10)
  (if n < 0 then "-" else "") ++ toString (n.natAbs / 10) ++ "." ++ toString (n.natAbs % 10)

/-- Embedding of `plot_operation`: one bar per container of
`CONTAINER_ORDER` — its y-label, its time `data.get(c, 0)`, and its
text annotation (two spaces then the time to one decimal place) rendered
at the bar tip. -/
def plotOperation (data : List (String × ℚ)) : List (String × ℚ × String) :=
  CONTAINER_ORDER.map (fun c =>
    let t := (lookupA c data).getD 0
    ((lookupA c CONTAINER_LABELS).getD "", t, "  " ++ fmtTenths t))

/-! ## visualize.py : `parse_bench_name`

The Python source is `re.match(r"BM_(\w+)<(\d+)>", name)`: anchored at the
start only (no `$`), greedy `\w+` followed by a literal `<`, at least one
decimal digit, and a literal `>`.  Since `<` and `>` are not word
characters and digits cannot back off into `>`, greedy matching is exactly
take-while. -/

/-- Python `int` of a nonempty decimal-digit string. -/
def digitsToNat (ds : List Char) : ℕ :=
  ds.foldl (fun a c => a * 10 + (c.toNat - '0'.toNat)) 0

/-- Embedding of `visualize.py`'s `parse_bench_name`: extract the operation
and `N` from a benchmark name like `BM_Broadcast<5>`; `none` plays the role
of Python's `(None, None)`. -/
def parse_bench_name (s : String) : Option (String × ℕ) :=
  match s.data with
  | 'B' :: 'M' :: '_' :: rest =>
    let w := rest.takeWhile isWordChar
    let r1 := rest.dropWhile isWordChar
    if w = [] then none
    else
      match r1 with
      | '<' :: r2 =>
        let ds := r2.takeWhile Char.isDigit
        let r3 := r2.dropWhile Char.isDigit
        if ds = [] then none
        else
          match r3 with
          | '>' :: _ => some (String.mk w, digitsToNat ds)
          | _ => none
      | _ => none
  | _ => none

/-! ## visualize.py : `plot_throughput` grouping and `plot_density` -/

/-- One benchmark record of the SWAR-throughput JSON: only `name` and
`real_time` are consumed. -/
structure VRecord where
  name : String
  real_time : ℚ
deriving DecidableEq, Repr

/-- One iteration of `plot_throughput`'s grouping loop: skip the record if
`parse_bench_name` fails, otherwise store its time under `(operation, N)`. -/
def thrStep (ops : List (String × List (ℕ × ℚ))) (bm : VRecord) :
    List (String × List (ℕ × ℚ)) :=
  match parse_bench_name bm.name with
  | none => ops
  | some (op, n) => setN ops op n bm.real_time

/-- The whole grouping loop of `plot_throughput`. -/
def throughputGroup (records : List VRecord) : List (String × List (ℕ × ℚ)) :=
  records.foldl thrStep []

/-- `ns = list(range(5, 15))` of `plot_density`. -/
def densityNs : List ℕ := List.range' 5 10

/-- `lanes = [64 // n for n in ns]`. -/
def densityLanes : List ℕ := densityNs.map (fun n => 64 / n)

/-- `bits_used = [l * n for l, n in zip(lanes, ns)]`. -/
def densityBitsUsed : List ℕ := List.zipWith (fun l n => l * n) densityLanes densityNs

/-- `efficiency = [bu / 64.0 * 100 for bu in bits_used]` — the heights of
the plotted bars (exact in `ℚ`: these dyadic values are exact floats). -/
def densityEfficiency : List ℚ := densityBitsUsed.map (fun bu => (bu : ℚ) / 64 * 100)

/-- `wasted = [64 - bu for bu in bits_used]`. -/
def densityWasted : List ℕ := densityBitsUsed.map (fun bu => 64 - bu)

/-- The density report rows as rendered on the chart: for each `N` its bar
position, the lanes and wasted-bits annotation data. -/
def densityRows : List (ℕ × ℕ × ℕ × ℕ) :=
  densityNs.zip (densityLanes.zip (densityBitsUsed.zip densityWasted))

/-- The spec's own formula, stated for comparison with the code:
`packing_efficiency(b) = (lanes_per_word(b) * b) / 64.0`. -/
def spec_packing_efficiency (b : ℕ) : ℚ :=
  ((64 / b * b : ℕ) : ℚ) / 64

/-- Everything `visualize.py`'s `main` renders: the density chart data
(always produced) and the throughput chart data (only when a benchmark
results file exists, `none` otherwise). -/
structure VisualizeOutput where
  densityChart : List (ℕ × ℕ × ℕ × ℕ) × List ℚ
  throughputChart : Option (List (String × List (ℕ × ℚ)))
deriving DecidableEq, Repr

/-- Embedding of `visualize.py`'s `main`: `benchData` is the parsed content
of `results/bench_results.json` when that file exists. -/
def visualizeMain (benchData : Option (List VRecord)) : VisualizeOutput :=
  { densityChart := (densityRows, densityEfficiency)
    throughputChart := benchData.map throughputGroup }

/-! ## PackedSet container, modelled from the spec

The container's implementation is not among the visible source files (only
the benchmark visualizers are); the definitions below follow the
specification's state-machine view of sections 3, 4.3 and 7: a PackedSet is
a vector of `b`-bit lanes, each holding either the empty sentinel
`2^b - 1` or a value of the legal domain `[0, 2^b - 2]`. -/

/-- Modelled from the spec: the error taxonomy of section 7 for the missing
container code (`ConfigError`, `DomainError`, `CapacityError`). -/
inductive PSError where
  | configError
  | domainError
  | capacityError
deriving DecidableEq, Repr

/-- Modelled from the spec: the reserved empty-sentinel lane value
`2^b - 1` for lane bit-width `b`. -/
def sentinel (b : ℕ) : ℕ := 2 ^ b - 1

/-- Modelled from the spec: a PackedSet's state — its lane bit-width and
its per-lane state vector, each lane holding a raw `b`-bit pattern
(`sentinel b` encodes `Empty`, anything else `Occupied(value)`).  The
missing container code stores these lanes packed into 64-bit words; lane
order and content are what the spec's operations are defined over. -/
structure PackedSet where
  width : ℕ
  lanes : List ℕ
deriving DecidableEq, Repr

/-- Modelled from the spec: `contains(value)` — `DomainError` on a value
outside `[0, 2^b - 2]` (the sentinel included), otherwise true iff some
lane equals the value. -/
def PackedSet.contains (s : PackedSet) (v : ℕ) : Except PSError Bool :=
  if sentinel s.width ≤ v then .error .domainError
  else .ok (decide (v ∈ s.lanes))

/-- Modelled from the spec: the scan of `insert` for the first sentinel
lane in fixed low-to-high order, overwriting exactly that lane; `none`
when no empty lane exists. -/
def insertLanes (sent v : ℕ) : List ℕ → Option (List ℕ)
  | [] => none
  | l :: ls =>
    if l = sent then some (v :: ls)
    else (insertLanes sent v ls).map (fun ls2 => l :: ls2)

/-- Modelled from the spec: `insert(value)` — `DomainError` outside the
legal domain; a no-op returning `false` when the value is already present;
otherwise the lowest-index empty lane is overwritten and `true` returned;
`CapacityError` when the set is full. -/
def PackedSet.insert (s : PackedSet) (v : ℕ) : Except PSError (PackedSet × Bool) :=
  if sentinel s.width ≤ v then .error .domainError
  else if v ∈ s.lanes then .ok (s, false)
  else
    match insertLanes (sentinel s.width) v s.lanes with
    | some ls => .ok ({ s with lanes := ls }, true)
    | none => .error .capacityError

/-- Count of lanes holding value `v` (used to state that no duplicate lane
is ever created). -/
def PackedSet.laneCount (s : PackedSet) (v : ℕ) : ℕ :=
  s.lanes.count v

/-! ## Helper machinery for the grouping proofs -/

/-- Generic form shared by both grouping loops: store `val r` under the
two-level key `keyOf r`, skipping records without a key. -/
def genStep {ρ α γ β : Type} [DecidableEq α] [DecidableEq γ]
    (keyOf : ρ → Option (α × γ)) (val : ρ → β)
    (st : List (α × List (γ × β))) (r : ρ) : List (α × List (γ × β)) :=
  match keyOf r with
  | none => st
  | some k => setN st k.1 k.2 (val r)

/-- Value of the last record on which `f` fires (input order; later wins). -/
def lastVal {ρ β : Type} (f : ρ → Option β) : List ρ → Option β
  | [] => none
  | r :: rs => (lastVal f rs).or (f r)

/-- Value of the first record on which `f` fires (input order). -/
def firstVal {ρ β : Type} (f : ρ → Option β) : List ρ → Option β
  | [] => none
  | r :: rs => (f r).or (firstVal f rs)

theorem lookupA_setA {α β : Type} [DecidableEq α] (m : List (α × β)) (k a : α) (v : β) :
    lookupA a (setA m k v) = if k = a then some v else lookupA a m := by
  induction m with
  | nil => simp [setA, lookupA]
  | cons p rest ih =>
    obtain ⟨k', v'⟩ := p
    by_cases hk : k' = k
    · subst hk
      simp only [setA, if_pos rfl, lookupA]
      split_ifs <;> simp_all
    · simp only [setA, if_neg hk, lookupA, ih]
      split_ifs <;> simp_all

theorem lookupN_setN {α γ β : Type} [DecidableEq α] [DecidableEq γ]
    (m : List (α × List (γ × β))) (k1 a : α) (k2 b : γ) (v : β) :
    lookupN a b (setN m k1 k2 v) =
      if k1 = a ∧ k2 = b then some v else lookupN a b m := by
  induction m with
  | nil =>
    simp only [setN, lookupN, lookupA]
    split_ifs <;> simp_all
  | cons p rest ih =>
    obtain ⟨k, inner⟩ := p
    by_cases hk : k = k1
    · subst hk
      simp only [setN, if_pos rfl, lookupN, lookupA_setA]
      split_ifs <;> simp_all
    · simp only [setN, if_neg hk, lookupN, ih]
      split_ifs <;> simp_all

theorem lastVal_eq_getLast {ρ β : Type} (f : ρ → Option β) (rs : List ρ) :
    lastVal f rs = (rs.filterMap f).getLast? := by
  induction rs with
  | nil => simp [lastVal]
  | cons r rs ih =>
    cases hf : f r with
    | none => simp [lastVal, List.filterMap_cons, hf, ih]
    | some t =>
      simp only [lastVal, List.filterMap_cons, hf, ih]
      cases hl : rs.filterMap f with
      | nil => simp [hl]
      | cons x xs =>
        rw [List.getLast?_cons_cons]
        cases hx : (x :: xs).getLast? with
        | none => exact absurd (List.getLast?_eq_none_iff.mp hx) (by simp)
        | some y => simp

theorem firstVal_eq_head {ρ β : Type} (f : ρ → Option β) (rs : List ρ) :
    firstVal f rs = (rs.filterMap f).head? := by
  induction rs with
  | nil => simp [firstVal]
  | cons r rs ih =>
    cases hf : f r with
    | none => simp [firstVal, List.filterMap_cons, hf, ih]
    | some t => simp [firstVal, List.filterMap_cons, hf]

theorem lookupN_genFold {ρ α γ β : Type} [DecidableEq α] [DecidableEq γ]
    (keyOf : ρ → Option (α × γ)) (val : ρ → β) (a : α) (b : γ) (rs : List ρ) :
    ∀ m : List (α × List (γ × β)),
      lookupN a b (rs.foldl (genStep keyOf val) m) =
        (lastVal (fun r => (keyOf r).bind
          (fun k => if k.1 = a ∧ k.2 = b then some (val r) else none)) rs).or
          (lookupN a b m) := by
  induction rs with
  | nil => intro m; simp [lastVal]
  | cons r rs ih =>
    intro m
    simp only [List.foldl_cons, lastVal, ih, Option.or_assoc]
    congr 1
    show lookupN a b (genStep keyOf val m r) = Option.or _ (lookupN a b m)
    cases hk : keyOf r with
    | none => simp [genStep, hk]
    | some k =>
      simp only [genStep, hk, lookupN_setN]
      split_ifs with h <;> simp [h]

theorem keepFirst_none (a : Option Int) : keepFirst a none = a := by
  cases a <;> rfl

theorem keepFirst_assoc (a b c : Option Int) :
    keepFirst (keepFirst a b) c = keepFirst a (keepFirst b c) := by
  cases a <;> rfl

theorem thrStep_eq_genStep :
    thrStep = genStep (fun r : VRecord => parse_bench_name r.name) (fun r => r.real_time) := by
  funext st r
  simp only [thrStep, genStep]
  cases hk : parse_bench_name r.name with
  | none => rfl
  | some k => cases k; rfl

theorem foldl_compStep_ops (rs : List CRecord) :
    ∀ st : CompState,
      (rs.foldl compStep st).ops =
        rs.foldl (genStep (fun r : CRecord => parse_name r.name) (fun r => r.real_time)) st.ops := by
  induction rs with
  | nil => intro st; rfl
  | cons r rs ih =>
    intro st
    simp only [List.foldl_cons, ih]
    congr 1
    simp only [compStep, genStep]
    cases hk : parse_name r.name with
    | none => rfl
    | some k => cases k; rfl

/-- The `N`-field contribution of one record: present only when the record's
name parses. -/
def nOf (r : CRecord) : Option Int :=
  match parse_name r.name with
  | none => none
  | some _ => r.nField

/-- The `size`-field contribution of one record: present only when the
record's name parses. -/
def szOf (r : CRecord) : Option Int :=
  match parse_name r.name with
  | none => none
  | some _ => r.sizeField

theorem foldl_compStep_benchN (rs : List CRecord) :
    ∀ st : CompState,
      (rs.foldl compStep st).benchN = keepFirst st.benchN (firstVal nOf rs) := by
  induction rs with
  | nil => intro st; simp [firstVal, keepFirst_none]
  | cons r rs ih =>
    intro st
    simp only [List.foldl_cons, ih, firstVal]
    cases hk : parse_name r.name with
    | none =>
      have h1 : (compStep st r).benchN = st.benchN := by simp [compStep, hk]
      have h2 : nOf r = none := by simp [nOf, hk]
      simp [h1, h2, Option.none_or]
    | some k =>
      have h1 : (compStep st r).benchN = keepFirst st.benchN r.nField := by
        cases k; simp [compStep, hk]
      have h2 : nOf r = r.nField := by simp [nOf, hk]
      have h3 : (r.nField).or (firstVal nOf rs) = keepFirst r.nField (firstVal nOf rs) := by
        cases r.nField <;> rfl
      rw [h1, h2, h3, keepFirst_assoc]

theorem foldl_compStep_benchSize (rs : List CRecord) :
    ∀ st : CompState,
      (rs.foldl compStep st).benchSize = keepFirst st.benchSize (firstVal szOf rs) := by
  induction rs with
  | nil => intro st; simp [firstVal, keepFirst_none]
  | cons r rs ih =>
    intro st
    simp only [List.foldl_cons, ih, firstVal]
    cases hk : parse_name r.name with
    | none =>
      have h1 : (compStep st r).benchSize = st.benchSize := by simp [compStep, hk]
      have h2 : szOf r = none := by simp [szOf, hk]
      simp [h1, h2, Option.none_or]
    | some k =>
      have h1 : (compStep st r).benchSize = keepFirst st.benchSize r.sizeField := by
        cases k; simp [compStep, hk]
      have h2 : szOf r = r.sizeField := by simp [szOf, hk]
      have h3 : (r.sizeField).or (firstVal szOf rs) = keepFirst r.sizeField (firstVal szOf rs) := by
        cases r.sizeField <;> rfl
      rw [h1, h2, h3, keepFirst_assoc]

theorem containerAlts_chars :
    ∀ alt ∈ containerAlts, ∀ c ∈ alt.data, isWordChar c = true := by decide

theorem containerAt_chars (l : List Char) (cont : String) (h : containerAt l = some cont) :
    ∀ c ∈ l, isWordChar c = true ∨ c = '\n' := by
  have hmem := List.mem_of_find?_eq_some h
  have hp := List.find?_some h
  have hshape : l = cont.data ∨ l = cont.data ++ ['\n'] := by
    simpa [tailAnchor, Bool.or_eq_true, decide_eq_true_iff] using hp
  intro c hc
  rcases hshape with h' | h'
  · subst h'
    exact Or.inl (containerAlts_chars cont hmem c hc)
  · subst h'
    rcases List.mem_append.mp hc with h2 | h2
    · exact Or.inl (containerAlts_chars cont hmem c h2)
    · simp only [List.mem_singleton] at h2
      exact Or.inr h2

theorem findSplit_chars (l : List Char) :
    ∀ (acc : List Char) (r : String × String), findSplit acc l = some r →
      ∀ c ∈ l, isWordChar c = true ∨ c = '\n' := by
  induction l with
  | nil => intro acc r h; simp [findSplit] at h
  | cons c rest ih =>
    intro acc r h c' hc'
    rw [findSplit] at h
    by_cases hw : isWordChar c
    · rw [if_pos hw] at h
      rcases List.mem_cons.mp hc' with rfl | hc2
      · exact Or.inl hw
      · split at h
        · rename_i rest2
          split at h
          · rename_i cont hcont
            rcases List.mem_cons.mp hc2 with rfl | hc3
            · exact Or.inl (by decide)
            · exact containerAt_chars rest2 cont hcont c' hc3
          · exact ih _ _ h c' hc2
        · exact ih _ _ h c' hc2
    · rw [if_neg hw] at h
      cases h

theorem parse_name_chars (s : String) (r : String × String) (h : parse_name s = some r) :
    ∀ c ∈ s.data, isWordChar c = true ∨ c = '\n' := by
  unfold parse_name at h
  split at h
  · rename_i rest heq
    intro c hc
    rw [heq] at hc
    rcases List.mem_cons.mp hc with rfl | hc
    · exact Or.inl (by decide)
    rcases List.mem_cons.mp hc with rfl | hc
    · exact Or.inl (by decide)
    rcases List.mem_cons.mp hc with rfl | hc
    · exact Or.inl (by decide)
    · exact findSplit_chars rest [] r h c hc
  · cases h

theorem parse_name_slash_none (s : String) (h : '/' ∈ s.data) : parse_name s = none := by
  cases hp : parse_name s with
  | none => rfl
  | some r =>
    rcases parse_name_chars s r hp '/' h with hw | hn
    · exact absurd hw (by decide)
    · exact absurd hn (by decide)

theorem insertLanes_mem (sent v : ℕ) (l : List ℕ) :
    ∀ ls, insertLanes sent v l = some ls → v ∈ ls := by
  induction l with
  | nil => intro ls h; simp [insertLanes] at h
  | cons x xs ih =>
    intro ls h
    rw [insertLanes] at h
    split_ifs at h with hx
    · obtain rfl : v :: xs = ls := by injection h
      exact List.mem_cons_self v xs
    · cases hrec : insertLanes sent v xs with
      | none => rw [hrec] at h; simp at h
      | some ls2 =>
        rw [hrec] at h
        obtain rfl : x :: ls2 = ls := by injection h
        exact List.mem_cons_of_mem x (ih ls2 hrec)

theorem insertLanes_count (sent v : ℕ) (hne : v ≠ sent) (l : List ℕ) :
    ∀ ls, insertLanes sent v l = some ls → ls.count v = l.count v + 1 := by
  induction l with
  | nil => intro ls h; simp [insertLanes] at h
  | cons x xs ih =>
    intro ls h
    rw [insertLanes] at h
    split_ifs at h with hx
    · obtain rfl : v :: xs = ls := by injection h
      subst hx
      simp [List.count_cons, hne]
    · cases hrec : insertLanes sent v xs with
      | none => rw [hrec] at h; simp at h
      | some ls2 =>
        rw [hrec] at h
        obtain rfl : x :: ls2 = ls := by injection h
        simp [List.count_cons, ih ls2 hrec]
        omega

theorem fmtTenths_zero : fmtTenths 0 = "0.0" := by
  norm_num [fmtTenths]
  decide

/-- Claim C1: the density report computes, for every bit-width N from 5 to
14 inclusive and no other widths, lanes = floor(64 / N), bits_used =
lanes * N, and wasted bits = 64 - bits_used. -/
theorem claim1_density_report :
    densityNs = [5, 6, 7, 8, 9, 10, 11, 12, 13, 14] ∧
    densityRows = densityNs.map (fun n => (n, 64 / n, 64 / n * n, 64 - 64 / n * n)) := by
  constructor <;> decide

/-- Claim C2 counterexample: at bit-width 5 the density report produces the
value 60 / 64 * 100 = 93.75 (a percentage), which is not the claimed
bits_used / 64 = 0.9375. -/
theorem claim2_counterexample :
    densityNs.head? = some 5 ∧
    densityEfficiency.head? = some ((375 : ℚ) / 4) ∧
    spec_packing_efficiency 5 = (15 : ℚ) / 16 ∧
    densityEfficiency.head? ≠ some (spec_packing_efficiency 5) := by
  have hbu : densityBitsUsed = [60, 60, 63, 64, 63, 60, 55, 60, 52, 56] := by decide
  refine ⟨by decide, ?_, ?_, ?_⟩
  · rw [densityEfficiency, hbu]
    norm_num
  · norm_num [spec_packing_efficiency]
  · rw [densityEfficiency, hbu]
    norm_num [spec_packing_efficiency]

/-- Claim C2 (amended): for every bit-width b in the density report, the
packing-efficiency value produced equals (lanes_per_word(b) * b) / 64.0
multiplied by 100, i.e. the percentage 100 * bits_used / 64, not the bare
ratio. -/
theorem claim2_efficiency_percent :
    densityNs.zip densityEfficiency =
      densityNs.map (fun n => (n, spec_packing_efficiency n * 100)) := by
  have hns : densityNs = [5, 6, 7, 8, 9, 10, 11, 12, 13, 14] := by decide
  have hbu : densityBitsUsed = [60, 60, 63, 64, 63, 60, 55, 60, 52, 56] := by decide
  rw [densityEfficiency, hbu, hns]
  simp only [List.map_cons, List.map_nil, List.zip_cons_cons, List.zip_nil_right]
  norm_num [spec_packing_efficiency]

/-- Claim C5: the density report is a pure function of bit-width only —
its chart data is identical across any two runs of the visualizer,
regardless of the presence or contents of benchmark result data. -/
theorem claim5_density_independent (d1 d2 : Option (List VRecord)) :
    (visualizeMain d1).densityChart = (visualizeMain d2).densityChart := rfl

theorem comparisonGroup_skip (r : CRecord) (h : parse_name r.name = none)
    (rs1 rs2 : List CRecord) :
    comparisonGroup (rs1 ++ r :: rs2) = comparisonGroup (rs1 ++ rs2) := by
  unfold comparisonGroup
  rw [List.foldl_append, List.foldl_append, List.foldl_cons]
  congr 1
  simp [compStep, h]

theorem throughputGroup_skip (r : VRecord) (h : parse_bench_name r.name = none)
    (rs1 rs2 : List VRecord) :
    throughputGroup (rs1 ++ r :: rs2) = throughputGroup (rs1 ++ rs2) := by
  unfold throughputGroup
  rw [List.foldl_append, List.foldl_append, List.foldl_cons]
  congr 1
  simp [thrStep, h]

/-- Claim C3: a benchmark record whose name does not match the expected
pattern is skipped by the visualization layer — it contributes nothing to
the grouped data (and hence to any chart) of either script. -/
theorem claim3_unmatched_skipped :
    (∀ (r : CRecord) (rs1 rs2 : List CRecord), parse_name r.name = none →
        comparisonGroup (rs1 ++ r :: rs2) = comparisonGroup (rs1 ++ rs2)) ∧
    (∀ (r : VRecord) (rs1 rs2 : List VRecord), parse_bench_name r.name = none →
        throughputGroup (rs1 ++ r :: rs2) = throughputGroup (rs1 ++ rs2)) :=
  ⟨fun r rs1 rs2 h => comparisonGroup_skip r h rs1 rs2,
   fun r rs1 rs2 h => throughputGroup_skip r h rs1 rs2⟩

theorem claim3_unmatched_skipped_witness :
    (parse_name "totally bogus" = none ∧ parse_bench_name "totally bogus" = none) ∧
    comparisonGroup [⟨"BM_Insert_StdSet", 3, none, none⟩,
        ⟨"totally bogus", 9, some 11, some 10⟩] =
      comparisonGroup [⟨"BM_Insert_StdSet", 3, none, none⟩] ∧
    throughputGroup [⟨"totally bogus", 9⟩] = throughputGroup [] :=
  ⟨⟨by decide, by decide⟩,
   claim3_unmatched_skipped.1 ⟨"totally bogus", 9, some 11, some 10⟩
     [⟨"BM_Insert_StdSet", 3, none, none⟩] [] (by decide),
   claim3_unmatched_skipped.2 ⟨"totally bogus", 9⟩ [] [] (by decide)⟩

/-- Claim C8: a benchmark name carrying a size suffix (anything after a
slash) cannot match `parse_name`'s end-anchored regex, so `parse_name`
returns the (None, None) analogue and every size-suffixed record is
excluded from the comparison grouping. -/
theorem claim8_size_suffix_excluded (base suffix : String) :
    parse_name (base ++ "/" ++ suffix) = none ∧
    ∀ (rt : ℚ) (nf sf : Option Int) (rs1 rs2 : List CRecord),
      comparisonGroup (rs1 ++ ⟨base ++ "/" ++ suffix, rt, nf, sf⟩ :: rs2) =
        comparisonGroup (rs1 ++ rs2) := by
  have hslash : '/' ∈ (base ++ "/" ++ suffix).data := by
    rw [String.data_append, String.data_append]
    exact List.mem_append.mpr (Or.inl (List.mem_append.mpr (Or.inr (by decide))))
  have hnone := parse_name_slash_none _ hslash
  exact ⟨hnone, fun rt nf sf rs1 rs2 => comparisonGroup_skip _ hnone rs1 rs2⟩

/-- Claim C4 counterexample: in this record list some record carries an `N`
field and the first such record has N = 5, yet the comparison script
renders "7" — the N of the first record whose *name parses* — because the
name filter runs before the metadata latch. -/
theorem claim4_counterexample :
    (([⟨"skipped name", 1, some 5, some 3⟩,
       ⟨"BM_Insert_PackedSet", 2, some 7, some 10⟩] : List CRecord).filterMap
         CRecord.nField).head? = some 5 ∧
    comparisonNStr [⟨"skipped name", 1, some 5, some 3⟩,
       ⟨"BM_Insert_PackedSet", 2, some 7, some 10⟩] = "7" ∧
    comparisonNStr [⟨"skipped name", 1, some 5, some 3⟩,
       ⟨"BM_Insert_PackedSet", 2, some 7, some 10⟩] ≠ "5" := by
  refine ⟨by decide, by decide, by decide⟩

/-- Claim C4 (amended): when no record *whose name parses* carries an `N`
(resp. `size`) field, the comparison script renders "?" for that value;
when some parsed record carries it, the integer of the first such parsed
record is rendered.  Records failing the name pattern are ignored for the
metadata even if they carry the field. -/
theorem claim4_meta_first_parsed (rs : List CRecord) :
    (comparisonGroup rs).benchN = (rs.filterMap nOf).head? ∧
    (comparisonGroup rs).benchSize = (rs.filterMap szOf).head? ∧
    ((comparisonGroup rs).benchN = none → comparisonNStr rs = "?") ∧
    (∀ n : Int, (comparisonGroup rs).benchN = some n → comparisonNStr rs = toString n) ∧
    ((comparisonGroup rs).benchSize = none → comparisonSzStr rs = "?") ∧
    (∀ n : Int, (comparisonGroup rs).benchSize = some n → comparisonSzStr rs = toString n) := by
  have hn : (comparisonGroup rs).benchN = (rs.filterMap nOf).head? := by
    rw [comparisonGroup, foldl_compStep_benchN]
    rw [firstVal_eq_head]
    rfl
  have hs : (comparisonGroup rs).benchSize = (rs.filterMap szOf).head? := by
    rw [comparisonGroup, foldl_compStep_benchSize]
    rw [firstVal_eq_head]
    rfl
  refine ⟨hn, hs, ?_, ?_, ?_, ?_⟩
  · intro h; rw [comparisonNStr, h]; rfl
  · intro n h; rw [comparisonNStr, h]; rfl
  · intro h; rw [comparisonSzStr, h]; rfl
  · intro n h; rw [comparisonSzStr, h]; rfl

theorem claim4_meta_first_parsed_witness :
    ((comparisonGroup ([] : List CRecord)).benchN = none ∧
      (comparisonGroup [⟨"BM_Insert_PackedSet", 2, some 7, some 10⟩]).benchN = some 7) ∧
    comparisonNStr [] = "?" ∧
    comparisonNStr [⟨"BM_Insert_PackedSet", 2, some 7, some 10⟩] = toString (7 : Int) ∧
    (comparisonGroup [⟨"BM_Insert_PackedSet", 2, some 7, some 10⟩]).benchN =
      ([⟨"BM_Insert_PackedSet", 2, some 7, some 10⟩].filterMap nOf).head? :=
  ⟨⟨by decide, by decide⟩,
   (claim4_meta_first_parsed []).2.2.1 (by decide),
   (claim4_meta_first_parsed [⟨"BM_Insert_PackedSet", 2, some 7, some 10⟩]).2.2.2.1 7 (by decide),
   (claim4_meta_first_parsed [⟨"BM_Insert_PackedSet", 2, some 7, some 10⟩]).1⟩

/-- Claim C9: when several records parse to the same (operation, container)
key in comparison.py, or the same (operation, N) key in visualize.py, the
grouped time is the `real_time` of the last such record in input order —
later records overwrite earlier ones. -/
theorem claim9_last_record_wins (rs : List CRecord) (op c : String)
    (vrs : List VRecord) (vop : String) (n : ℕ) :
    lookupN op c (comparisonGroup rs).ops =
      (rs.filterMap (fun r => (parse_name r.name).bind
        (fun k => if k.1 = op ∧ k.2 = c then some r.real_time else none))).getLast? ∧
    lookupN vop n (throughputGroup vrs) =
      (vrs.filterMap (fun r => (parse_bench_name r.name).bind
        (fun k => if k.1 = vop ∧ k.2 = n then some r.real_time else none))).getLast? := by
  constructor
  · rw [comparisonGroup, foldl_compStep_ops, lookupN_genFold, lastVal_eq_getLast]
    simp only [lookupN, Option.or_none]
  · rw [throughputGroup, thrStep_eq_genStep, lookupN_genFold, lastVal_eq_getLast]
    simp only [lookupN, Option.or_none]

/-- Claim C10: in each operation chart, a container of the fixed
CONTAINER_ORDER with no parsed record for that operation is rendered as a
bar of value 0 labelled "  0.0" — it is not omitted (the chart always has
one bar per container). -/
theorem claim10_missing_container_zero (data : List (String × ℚ)) (i : ℕ)
    (hi : i < CONTAINER_ORDER.length)
    (hmiss : lookupA (CONTAINER_ORDER.get ⟨i, hi⟩) data = none) :
    (plotOperation data).length = CONTAINER_ORDER.length ∧
    (plotOperation data).get? i =
      some ((lookupA (CONTAINER_ORDER.get ⟨i, hi⟩) CONTAINER_LABELS).getD "", 0, "  0.0") := by
  constructor
  · simp [plotOperation]
  · rw [plotOperation, List.get?_map, List.get?_eq_get hi]
    rw [List.get_eq_getElem] at hmiss
    simp [hmiss, fmtTenths_zero]

theorem claim10_missing_container_zero_witness :
    ((0 : ℕ) < CONTAINER_ORDER.length ∧
      lookupA (CONTAINER_ORDER.get ⟨0, by decide⟩) ([] : List (String × ℚ)) = none) ∧
    (plotOperation ([] : List (String × ℚ))).length = CONTAINER_ORDER.length ∧
    (plotOperation ([] : List (String × ℚ))).get? 0 =
      some ((lookupA (CONTAINER_ORDER.get ⟨0, by decide⟩) CONTAINER_LABELS).getD "", 0, "  0.0") :=
  ⟨⟨by decide, by decide⟩,
   (claim10_missing_container_zero [] 0 (by decide) (by decide)).1,
   (claim10_missing_container_zero [] 0 (by decide) (by decide)).2⟩

/-- Claim C6: insert is idempotent — re-inserting the value just inserted
is a no-op returning false that leaves the state unchanged, inserting an
already-present value is a no-op returning false, and no duplicate lane is
ever created (the lane count of the value after a successful insert is at
most max(previous count, 1)). -/
theorem claim6_insert_idempotent (S : PackedSet) (v : ℕ)
    (hb : 0 < S.width) (hv : v ≤ 2 ^ S.width - 2) :
    (∀ (s1 : PackedSet) (r1 : Bool), S.insert v = .ok (s1, r1) →
        s1.insert v = .ok (s1, false)) ∧
    (v ∈ S.lanes → S.insert v = .ok (S, false)) ∧
    (∀ (s1 : PackedSet) (r1 : Bool), S.insert v = .ok (s1, r1) →
        s1.laneCount v ≤ max (S.laneCount v) 1) := by
  have h2 : 1 < 2 ^ S.width := Nat.one_lt_two_pow_iff.mpr (by omega)
  have hvs : v < sentinel S.width := by
    unfold sentinel
    omega
  have hdom : ¬ sentinel S.width ≤ v := not_le.mpr hvs
  by_cases hmem : v ∈ S.lanes
  · have hins : S.insert v = .ok (S, false) := by
      rw [PackedSet.insert, if_neg hdom, if_pos hmem]
    refine ⟨?_, fun _ => hins, ?_⟩
    · intro s1 r1 h1
      rw [hins] at h1
      injection h1 with h1'
      rw [Prod.mk.injEq] at h1'
      obtain ⟨rfl, rfl⟩ := h1'
      exact hins
    · intro s1 r1 h1
      rw [hins] at h1
      injection h1 with h1'
      rw [Prod.mk.injEq] at h1'
      obtain ⟨rfl, rfl⟩ := h1'
      exact le_max_left _ _
  · cases hlanes : insertLanes (sentinel S.width) v S.lanes with
    | none =>
      have hins : S.insert v = .error .capacityError := by
        rw [PackedSet.insert, if_neg hdom, if_neg hmem, hlanes]
      refine ⟨?_, fun hm => absurd hm hmem, ?_⟩ <;>
        · intro s1 r1 h1
          rw [hins] at h1
          cases h1
    | some ls =>
      have hins : S.insert v = .ok ({ S with lanes := ls }, true) := by
        rw [PackedSet.insert, if_neg hdom, if_neg hmem, hlanes]
      have hmem2 : v ∈ ls := insertLanes_mem _ _ _ ls hlanes
      have hcnt : ls.count v = S.lanes.count v + 1 :=
        insertLanes_count _ _ (Nat.ne_of_lt hvs) _ ls hlanes
      have hzero : S.lanes.count v = 0 := List.count_eq_zero.mpr hmem
      refine ⟨?_, fun hm => absurd hm hmem, ?_⟩
      · intro s1 r1 h1
        rw [hins] at h1
        injection h1 with h1'
        rw [Prod.mk.injEq] at h1'
        obtain ⟨rfl, rfl⟩ := h1'
        rw [PackedSet.insert, if_neg hdom, if_pos hmem2]
      · intro s1 r1 h1
        rw [hins] at h1
        injection h1 with h1'
        rw [Prod.mk.injEq] at h1'
        obtain ⟨rfl, rfl⟩ := h1'
        show ls.count v ≤ max (S.lanes.count v) 1
        rw [hcnt, hzero]
        simp

theorem claim6_insert_idempotent_witness :
    ((0 : ℕ) < (4 : ℕ) ∧ (7 : ℕ) ≤ 2 ^ (4 : ℕ) - 2) ∧
    ((∀ (s1 : PackedSet) (r1 : Bool),
        PackedSet.insert ⟨4, [15, 3, 15]⟩ 7 = .ok (s1, r1) →
          s1.insert 7 = .ok (s1, false)) ∧
     ((7 : ℕ) ∈ (⟨4, [15, 3, 15]⟩ : PackedSet).lanes →
        PackedSet.insert ⟨4, [15, 3, 15]⟩ 7 = .ok (⟨4, [15, 3, 15]⟩, false)) ∧
     (∀ (s1 : PackedSet) (r1 : Bool),
        PackedSet.insert ⟨4, [15, 3, 15]⟩ 7 = .ok (s1, r1) →
          s1.laneCount 7 ≤ max ((⟨4, [15, 3, 15]⟩ : PackedSet).laneCount 7) 1)) :=
  ⟨⟨by decide, by decide⟩,
   claim6_insert_idempotent ⟨4, [15, 3, 15]⟩ 7 (by decide) (by decide)⟩

/-- Claim C7: for every PackedSet with lane bit-width b, both insert and
contains fail with DomainError on any value at or above the sentinel
2^b - 1 (every value outside [0, 2^b - 2]); the error is reported, never
silently coerced into a state change or a boolean. -/
theorem claim7_sentinel_domain_error (S : PackedSet) (v : ℕ)
    (hv : 2 ^ S.width - 1 ≤ v) :
    S.insert v = .error .domainError ∧ S.contains v = .error .domainError := by
  constructor
  · rw [PackedSet.insert, if_pos (show sentinel S.width ≤ v from hv)]
  · rw [PackedSet.contains, if_pos (show sentinel S.width ≤ v from hv)]

theorem claim7_sentinel_domain_error_witness :
    (2 ^ (⟨4, [15, 3, 15]⟩ : PackedSet).width - 1 ≤ 15) ∧
    (PackedSet.insert ⟨4, [15, 3, 15]⟩ 15 = .error .domainError ∧
     PackedSet.contains ⟨4, [15, 3, 15]⟩ 15 = .error .domainError) :=
  ⟨by decide, claim7_sentinel_domain_error ⟨4, [15, 3, 15]⟩ 15 (by decide)⟩

/-! ## Concrete sanity checks of the embedding -/

example : PackedSet.insert ⟨4, [15, 3, 15]⟩ 7 = .ok (⟨4, [7, 3, 15]⟩, true) := rfl

example : PackedSet.insert ⟨4, [7, 3, 15]⟩ 7 = .ok (⟨4, [7, 3, 15]⟩, false) := rfl

example : PackedSet.insert ⟨4, [7, 3]⟩ 15 = .error .domainError := rfl

example : PackedSet.contains ⟨4, [7, 3]⟩ 16 = .error .domainError := rfl

example : PackedSet.insert ⟨4, [7, 3]⟩ 5 = .error .capacityError := rfl

example : parse_bench_name "BM_Broadcast<5>" = some ("Broadcast", 5) := by decide

example : parse_bench_name "BM_Contains<14>" = some ("Contains", 14) := by decide

example : parse_bench_name "BM_Insert_PackedSet" = none := by decide

example : parse_name "BM_Insert_PackedSet" = some ("Insert", "PackedSet") := by decide

example : parse_name "BM_Insert_PackedSet/10" = none := by decide

example : parse_name "BM_Contains_StdSet" = some ("Contains", "StdSet") := by decide

example : parse_name "BM_Foo_Bar_Vector" = some ("Foo_Bar", "Vector") := by decide

example : parse_name "XBM_Insert_Vector" = none := by decide

example : fmtTenths 0 = "0.0" := by norm_num [fmtTenths]; decide
